import Mathlib

/-!
Verification of `src/packages/react-intl/src/utils.ts` (hoschi/formatjs).

The module is shallowly embedded: JavaScript values are modelled by the
inductive type `JsVal` (JSON-representable data: the locales and option bags
that flow into the formatter constructors), JavaScript records by association
lists `List (String × _)` with the first binding of a key authoritative,
`undefined` by `Option`, and the stateful memoization caches by explicit
state passing over an `IntlCache` value plus a `World` that records instance
allocation (giving each constructed formatter an identity) and the log of
invocations of the underlying platform constructors.

The behavior of the external collaborators that the repository only calls —
the fast-memoize variadic strategy, the `invariant` helper and the platform
`Intl` constructors — is modelled from the specification, as marked on the
respective definitions; everything else is translated from the source.
-/

namespace FormatjsUtils

/-- Model of a JavaScript (JSON-representable) runtime value: the domain of
locale arguments and option bags passed to the formatter constructors and
stored in the custom-format tables. `undefined` is modelled separately as
`Option JsVal = none` where it can occur. -/
inductive JsVal : Type where
  | jnull : JsVal
  | jbool : Bool → JsVal
  | jnum : Int → JsVal
  | jstr : String → JsVal
  | jarr : List JsVal → JsVal
  | jobj : List (String × JsVal) → JsVal

/-- JavaScript truthiness of a value: `null`, `false`, `0` and the empty
string are falsy; every other value (including empty arrays and objects) is
truthy. -/
def truthy : JsVal → Bool
  | .jnull => false
  | .jbool b => b
  | .jnum n => n != 0
  | .jstr s => s != ""
  | .jarr _ => true
  | .jobj _ => true

/-- Truthiness of a possibly-`undefined` value: `undefined` (`none`) is
falsy. -/
def truthyOpt : Option JsVal → Bool
  | none => false
  | some v => truthy v

/-- JavaScript property read `r[k]` on a record modelled as an association
list: `undefined` (`none`) when the key is absent. -/
def recGet {V : Type} : List (String × V) → String → Option V
  | [], _ => none
  | p :: r, k => if p.1 = k then some p.2 else recGet r k

/-- JavaScript `k in r` property-existence test. -/
def recHas {V : Type} (r : List (String × V)) (k : String) : Bool :=
  (recGet r k).isSome

/-- JavaScript property write `r[k] = v`: overwrite the existing binding in
place when the key is present, else append a fresh binding. -/
def recSet {V : Type} (r : List (String × V)) (k : String) (v : V) :
    List (String × V) :=
  if recHas r k then
    r.map (fun p => if p.1 = k then (k, v) else p)
  else r ++ [(k, v)]

/-- JavaScript property read `obj[key]` on an arbitrary value: `undefined`
(`none`) when the receiver is not an object or the key is absent. -/
def jsIndex (v : JsVal) (k : String) : Option JsVal :=
  match v with
  | .jobj kvs => recGet kvs k
  | _ => none

/-- Body of the `reduce` callback inside `filterProps` (utils.ts lines
32-40): copy the source binding when the key is present in the source, else
the default binding when present there, else leave the accumulator alone. -/
def filterStep (props defaults : List (String × JsVal))
    (filtered : List (String × JsVal)) (name : String) :
    List (String × JsVal) :=
  match recGet props name with
  | some v => recSet filtered name v
  | none =>
    match recGet defaults name with
    | some v => recSet filtered name v
    | none => filtered

/-- Embedding of `filterProps` (utils.ts lines 27-41): fold the whitelist
over an initially empty record with `filterStep`. The source gives
`defaults` the default value of an empty record; callers here pass it
explicitly. -/
def filterProps (props : List (String × JsVal)) (whitelist : List String)
    (defaults : List (String × JsVal)) : List (String × JsVal) :=
  whitelist.foldl (filterStep props defaults) []

/-- The value `filterProps` would store for a key: the source binding if
present, else the default binding if present, else nothing. -/
def propOrDefault (props defaults : List (String × JsVal)) (k : String) :
    Option JsVal :=
  match recGet props k with
  | some v => some v
  | none => recGet defaults k

/-- Modelled from the spec: `invariant` from the external
@formatjs/intl-utils package (its source is not under src/) fails with the
given descriptive message when the condition is falsy and returns normally
otherwise. -/
def invariant (condition : Option JsVal) (message : String) :
    Except String Unit :=
  if truthyOpt condition then Except.ok () else Except.error message

/-- The message built by `invariantIntlContext` (utils.ts lines 44-48). -/
def intlContextErrorMessage : String :=
  "[React Intl] Could not find required `intl` object. " ++
    "<IntlProvider> needs to exist in the component ancestry."

/-- Embedding of `invariantIntlContext` (utils.ts lines 43-49). -/
def invariantIntlContext (intl : Option JsVal) : Except String Unit :=
  invariant intl intlContextErrorMessage

/-- Error object raised through the `onError` callback by `getNamedFormat`
(the `UnsupportedFormatterError` of src/packages/react-intl/src/error.ts is
identified by its message here). -/
structure UnsupportedFormatterError where
  message : String

/-- Embedding of `getNamedFormat` (utils.ts lines 180-200). The second
component of the result collects the invocations of the `onError` callback,
in order. -/
def getNamedFormat (formats : Option JsVal) (type name : String) :
    Option JsVal × List UnsupportedFormatterError :=
  let formatType : Option JsVal :=
    if truthyOpt formats then
      match formats with
      | some v => jsIndex v type
      | none => none
    else formats
  let format : Option JsVal :=
    if truthyOpt formatType then
      match formatType with
      | some v => jsIndex v name
      | none => none
    else none
  if truthyOpt format then (format, [])
  else (none, [⟨"No " ++ type ++ " format named: " ++ name⟩])

/-! ### JSON serialization of argument lists

The variadic memoization strategy keys the cache by the JSON serialization
of the full argument array. `stringifyChars` renders a `JsVal` exactly as
JSON serialization of the modelled values does: `null`/`true`/`false`,
decimal integers, quoted strings with `"` and `\` escaped, comma-separated
arrays in brackets and `"key":value` objects in braces, with no whitespace.
The parser below it exists only to prove the serialization injective. -/

/-- The opening-brace character of object serialization. -/
def lbraceChar : Char := Char.ofNat 123

/-- The closing-brace character of object serialization. -/
def rbraceChar : Char := Char.ofNat 125

/-- The decimal digit character for `n < 10`. -/
def digitChar (n : Nat) : Char := Char.ofNat (48 + n)

/-- Decimal rendering of a natural number, most significant digit first. -/
def natChars (n : Nat) : List Char :=
  if n < 10 then [digitChar n]
  else natChars (n / 10) ++ [digitChar (n % 10)]
termination_by n
decreasing_by exact Nat.div_lt_self (by omega) (by omega)

/-- Decimal rendering of an integer, with a leading minus sign when
negative. -/
def intChars (n : Int) : List Char :=
  if n < 0 then '-' :: natChars n.natAbs else natChars n.toNat

/-- String-content escaping: quote and backslash get a backslash prefix. -/
def escChar (c : Char) : List Char :=
  if c = '"' ∨ c = '\\' then ['\\', c] else [c]

/-- Escape every character of a string body. -/
def escList : List Char → List Char
  | [] => []
  | c :: cs => escChar c ++ escList cs

mutual

/-- Characters of the JSON serialization of a value. -/
def stringifyChars : JsVal → List Char
  | .jnull => ['n', 'u', 'l', 'l']
  | .jbool true => ['t', 'r', 'u', 'e']
  | .jbool false => ['f', 'a', 'l', 's', 'e']
  | .jnum n => intChars n
  | .jstr s => '"' :: (escList s.data ++ ['"'])
  | .jarr xs => '[' :: arrChars xs
  | .jobj kvs => lbraceChar :: objChars kvs

/-- Serialization of an element list after the opening bracket: the
comma-separated elements and the closing bracket. -/
def arrChars : List JsVal → List Char
  | [] => [']']
  | x :: xs => stringifyChars x ++ arrTailChars xs

/-- Serialization of the remaining array elements, each preceded by a comma,
closed by a bracket. -/
def arrTailChars : List JsVal → List Char
  | [] => [']']
  | x :: xs => ',' :: (stringifyChars x ++ arrTailChars xs)

/-- Serialization of one object entry: quoted key, colon, value. -/
def entryChars : String × JsVal → List Char
  | (k, v) => '"' :: (escList k.data ++ ['"', ':'] ++ stringifyChars v)

/-- Serialization of an entry list after the opening brace: the
comma-separated entries and the closing brace. -/
def objChars : List (String × JsVal) → List Char
  | [] => [rbraceChar]
  | kv :: kvs => entryChars kv ++ objTailChars kvs

/-- Serialization of the remaining object entries, each preceded by a comma,
closed by a brace. -/
def objTailChars : List (String × JsVal) → List Char
  | [] => [rbraceChar]
  | kv :: kvs => ',' :: (entryChars kv ++ objTailChars kvs)

end

/-- JSON serialization of a value, as a string. -/
def stringify (v : JsVal) : String := String.mk (stringifyChars v)

mutual

/-- Size measure of a value, bounding the parser fuel its serialization
needs. -/
def jsize : JsVal → Nat
  | .jnull => 1
  | .jbool _ => 1
  | .jnum _ => 1
  | .jstr _ => 1
  | .jarr xs => jsizeList xs + 1
  | .jobj kvs => jsizeEntries kvs + 1

/-- Size measure of a list of array elements. -/
def jsizeList : List JsVal → Nat
  | [] => 1
  | x :: xs => jsize x + jsizeList xs + 1

/-- Size measure of a list of object entries. -/
def jsizeEntries : List (String × JsVal) → Nat
  | [] => 1
  | kv :: kvs => jsize kv.2 + jsizeEntries kvs + 1

end

/-- Greedily consume leading decimal digits. -/
def parseDigits : List Char → List Char × List Char
  | [] => ([], [])
  | c :: rest =>
    if c.isDigit then
      match parseDigits rest with
      | (ds, r) => (c :: ds, r)
    else ([], c :: rest)

/-- Numeric value of a digit string. -/
def digitsVal (ds : List Char) : Nat :=
  ds.foldl (fun a c => a * 10 + (c.toNat - 48)) 0

/-- Consume the body of a quoted string up to the closing quote, undoing the
escaping. -/
def parseStrChars : List Char → Option (List Char × List Char)
  | [] => none
  | c :: rest =>
    if c = '"' then some ([], rest)
    else if c = '\\' then
      match rest with
      | [] => none
      | e :: rest2 =>
        match parseStrChars rest2 with
        | some (s, r) => some (e :: s, r)
        | none => none
    else
      match parseStrChars rest with
      | some (s, r) => some (c :: s, r)
      | none => none

/-- Consume an expected literal character sequence. -/
def expectChars : List Char → List Char → Option (List Char)
  | [], input => some input
  | _ :: _, [] => none
  | c :: cs, d :: input => if c = d then expectChars cs input else none

mutual

/-- Parse one serialized value off the front of the input. The fuel bounds
the nesting the parser will follow. -/
def parseVal : Nat → List Char → Option (JsVal × List Char)
  | 0, _ => none
  | _ + 1, [] => none
  | fuel + 1, c :: rest =>
    if c = 'n' then
      (expectChars ['u', 'l', 'l'] rest).map fun r => (JsVal.jnull, r)
    else if c = 't' then
      (expectChars ['r', 'u', 'e'] rest).map fun r => (JsVal.jbool true, r)
    else if c = 'f' then
      (expectChars ['a', 'l', 's', 'e'] rest).map fun r =>
        (JsVal.jbool false, r)
    else if c = '"' then
      (parseStrChars rest).map fun p => (JsVal.jstr (String.mk p.1), p.2)
    else if c = '-' then
      if (parseDigits rest).1 = [] then none
      else
        some (JsVal.jnum (-(digitsVal (parseDigits rest).1 : Int)),
          (parseDigits rest).2)
    else if c.isDigit then
      some (JsVal.jnum (digitsVal (parseDigits (c :: rest)).1 : Int),
        (parseDigits (c :: rest)).2)
    else if c = '[' then
      (parseElems fuel rest).map fun p => (JsVal.jarr p.1, p.2)
    else if c = lbraceChar then
      (parseEntries fuel rest).map fun p => (JsVal.jobj p.1, p.2)
    else none

/-- Parse a possibly empty comma-separated element list closed by a
bracket. -/
def parseElems : Nat → List Char → Option (List JsVal × List Char)
  | 0, _ => none
  | fuel + 1, input =>
    if input.head? = some ']' then some ([], input.tail)
    else
      (parseVal fuel input).bind fun p =>
        if p.2.head? = some ',' then
          (parseElems fuel p.2.tail).bind fun q => some (p.1 :: q.1, q.2)
        else if p.2.head? = some ']' then some ([p.1], p.2.tail)
        else none

/-- Parse one `"key":value` object entry. -/
def parseEntry : Nat → List Char → Option ((String × JsVal) × List Char)
  | 0, _ => none
  | fuel + 1, input =>
    if input.head? = some '"' then
      (parseStrChars input.tail).bind fun p =>
        if p.2.head? = some ':' then
          (parseVal fuel p.2.tail).bind fun q =>
            some ((String.mk p.1, q.1), q.2)
        else none
    else none

/-- Parse a possibly empty comma-separated entry list closed by a brace. -/
def parseEntries : Nat → List Char →
    Option (List (String × JsVal) × List Char)
  | 0, _ => none
  | fuel + 1, input =>
    if input.head? = some rbraceChar then some ([], input.tail)
    else
      (parseEntry fuel input).bind fun p =>
        if p.2.head? = some ',' then
          (parseEntries fuel p.2.tail).bind fun q => some (p.1 :: q.1, q.2)
        else if p.2.head? = some rbraceChar then some ([p.1], p.2.tail)
        else none

end

/-- Holds when the input does not continue with a decimal digit, so a
greedily parsed number cannot capture following characters. -/
def noLeadDigit : List Char → Bool
  | [] => true
  | c :: _ => !c.isDigit

/-! ### The memoized formatter factory -/

/-- The seven formatter kinds memoized by `createFormatters`, one per
sub-store of the cache container. -/
inductive FmtKind : Type where
  | dateTime : FmtKind
  | number : FmtKind
  | message : FmtKind
  | relativeTime : FmtKind
  | pluralRules : FmtKind
  | list : FmtKind
  | displayNames : FmtKind
deriving DecidableEq

/-- A value inside the options record handed to the message-format library:
either plain data from the caller's options bag, or the injected record of
already-memoized number/date/plural-rules constructors. -/
inductive OptVal : Type where
  | data : JsVal → OptVal
  | injectedFormatters : OptVal

/-- A formatter instance produced by an underlying constructor. `instId` is
the allocation number, modelling JavaScript reference identity: two
constructions never share it. For the message kind, `messageOpts` records
the merged options record passed to the message-format library. -/
structure Instance where
  instId : Nat
  kind : FmtKind
  ctorArgs : List JsVal
  messageOpts : List (String × OptVal)

/-- Allocation state and invocation log of the underlying platform
constructors. -/
structure World where
  nextId : Nat
  calls : List (FmtKind × List JsVal)

/-- Behavior of the external platform constructors: on which kind/argument
combinations construction throws, and with which message. -/
structure Platform where
  throwsOn : FmtKind → List JsVal → Option String

/-- Own enumerable entries of a value, as contributed by object spread: an
object contributes its entries, other (non-string primitive) values
contribute none. -/
def jsEntries : JsVal → List (String × JsVal)
  | .jobj kvs => kvs
  | _ => []

/-- Object spread `\x7b ...base, ...entries \x7d`: each entry is written
over the base record in order, overwriting existing bindings. -/
def spreadInto (base : List (String × OptVal))
    (entries : List (String × OptVal)) : List (String × OptVal) :=
  entries.foldl (fun acc kv => recSet acc kv.1 kv.2) base

/-- The options record the message constructor of `createFormatters` passes
to the message-format library (utils.ts lines 146-155): a literal whose
first binding maps "formatters" to the injected memoized constructors, after
which the entries of `opts` (or of the empty object when `opts` is falsy)
are spread, overwriting earlier bindings. -/
def mergedMessageOpts (opts : Option JsVal) : List (String × OptVal) :=
  let optsObj : List (String × JsVal) :=
    match opts with
    | some v => if truthy v then jsEntries v else []
    | none => []
  spreadInto [("formatters", OptVal.injectedFormatters)]
    (optsObj.map (fun kv => (kv.1, OptVal.data kv.2)))

/-- Modelled from the spec: the instance a successful underlying platform or
library constructor invocation (`new Intl.DateTimeFormat(...)`, ...,
`new IntlMessageFormat(...)`) allocates, with the allocation number `nid` as
its identity. For the message kind the instance records the merged options
of utils.ts lines 148-155, whose `opts` is the fourth caller argument
(absent means `undefined`). -/
def freshInstance (k : FmtKind) (args : List JsVal) (nid : Nat) : Instance :=
  ⟨nid, k, args,
    if k = FmtKind.message then mergedMessageOpts args[3]? else []⟩

/-- Modelled from the spec: dispatch of one underlying construction, logging
the invocation, surfacing a thrown failure, and otherwise allocating the
fresh instance. -/
def underlyingNew (pf : Platform) (k : FmtKind) (args : List JsVal)
    (w : World) : Except String Instance × World :=
  match pf.throwsOn k args with
  | some e => (Except.error e, ⟨w.nextId, w.calls ++ [(k, args)]⟩)
  | none =>
    (Except.ok (freshInstance k args w.nextId),
      ⟨w.nextId + 1, w.calls ++ [(k, args)]⟩)

/-- One per-kind key-value store of the cache container. -/
abbrev Store := List (String × Instance)

/-- The `has` view of `createFastMemoizeCache` (utils.ts line 94): `key in
store`. -/
def cacheHas (store : Store) (key : String) : Bool := recHas store key

/-- The `get` view of `createFastMemoizeCache` (utils.ts line 97):
`store[key]`. -/
def cacheGet (store : Store) (key : String) : Option Instance :=
  recGet store key

/-- The `set` view of `createFastMemoizeCache` (utils.ts line 100):
`store[key] = value`. -/
def cacheSet (store : Store) (key : String) (v : Instance) : Store :=
  recSet store key v

/-- Modelled from the spec: the cache key of the variadic memoization
strategy of the external fast-memoize package, the order-sensitive JSON
serialization of the full argument list. -/
def serializeArgs (args : List JsVal) : String :=
  stringify (JsVal.jarr args)

/-- Modelled from the spec: one application of a constructor memoized by the
external fast-memoize package with the variadic strategy over a
`createFastMemoizeCache` store. On a hit of the serialized-arguments key the
stored instance is returned and nothing changes; on a miss the underlying
constructor runs, a successful result is stored under the key and returned,
and a thrown failure propagates leaving the store unchanged. -/
def memoizedApply (pf : Platform) (k : FmtKind) (args : List JsVal)
    (store : Store) (w : World) : Except String Instance × Store × World :=
  match cacheGet store (serializeArgs args) with
  | some v => (Except.ok v, store, w)
  | none =>
    match underlyingNew pf k args w with
    | (Except.ok v, w2) => (Except.ok v, cacheSet store (serializeArgs args) v, w2)
    | (Except.error e, w2) => (Except.error e, store, w2)

/-- The cache container (types.ts `IntlCache`): seven independent per-kind
stores. -/
structure IntlCache where
  dateTime : Store
  number : Store
  message : Store
  relativeTime : Store
  pluralRules : Store
  list : Store
  displayNames : Store

/-- Embedding of `createIntlCache` (utils.ts lines 78-88): a fresh container
with seven empty stores. -/
def createIntlCache : IntlCache := ⟨[], [], [], [], [], [], []⟩

/-- The sub-store of the container backing a formatter kind. -/
def subStore (c : IntlCache) : FmtKind → Store
  | .dateTime => c.dateTime
  | .number => c.number
  | .message => c.message
  | .relativeTime => c.relativeTime
  | .pluralRules => c.pluralRules
  | .list => c.list
  | .displayNames => c.displayNames

/-- Replace the sub-store of one kind, leaving the other six alone. -/
def setSubStore (c : IntlCache) : FmtKind → Store → IntlCache
  | .dateTime, s =>
    ⟨s, c.number, c.message, c.relativeTime, c.pluralRules, c.list,
      c.displayNames⟩
  | .number, s =>
    ⟨c.dateTime, s, c.message, c.relativeTime, c.pluralRules, c.list,
      c.displayNames⟩
  | .message, s =>
    ⟨c.dateTime, c.number, s, c.relativeTime, c.pluralRules, c.list,
      c.displayNames⟩
  | .relativeTime, s =>
    ⟨c.dateTime, c.number, c.message, s, c.pluralRules, c.list,
      c.displayNames⟩
  | .pluralRules, s =>
    ⟨c.dateTime, c.number, c.message, c.relativeTime, s, c.list,
      c.displayNames⟩
  | .list, s =>
    ⟨c.dateTime, c.number, c.message, c.relativeTime, c.pluralRules, s,
      c.displayNames⟩
  | .displayNames, s =>
    ⟨c.dateTime, c.number, c.message, c.relativeTime, c.pluralRules, c.list,
      s⟩

/-- Embedding of the memoized constructor of kind `k` returned by
`createFormatters` (utils.ts lines 116-178) over the cache container `c`:
apply the memoized underlying constructor backed by the sub-store of kind
`k` and write the updated sub-store back into the container. -/
def callFormatter (pf : Platform) (k : FmtKind) (args : List JsVal)
    (c : IntlCache) (w : World) :
    Except String Instance × IntlCache × World :=
  match memoizedApply pf k args (subStore c k) w with
  | (r, s2, w2) => (r, setSubStore c k s2, w2)

/-- The `getDateTimeFormat` member of the `createFormatters` result
(utils.ts lines 122-128). -/
def getDateTimeFormat (pf : Platform) (args : List JsVal) (c : IntlCache)
    (w : World) := callFormatter pf FmtKind.dateTime args c w

/-- The `getNumberFormat` member (utils.ts lines 129-135). -/
def getNumberFormat (pf : Platform) (args : List JsVal) (c : IntlCache)
    (w : World) := callFormatter pf FmtKind.number args c w

/-- The `getPluralRules` member (utils.ts lines 136-142). -/
def getPluralRules (pf : Platform) (args : List JsVal) (c : IntlCache)
    (w : World) := callFormatter pf FmtKind.pluralRules args c w

/-- The `getMessageFormat` member (utils.ts lines 146-160). -/
def getMessageFormat (pf : Platform) (args : List JsVal) (c : IntlCache)
    (w : World) := callFormatter pf FmtKind.message args c w

/-- The `getRelativeTimeFormat` member (utils.ts lines 161-167). -/
def getRelativeTimeFormat (pf : Platform) (args : List JsVal)
    (c : IntlCache) (w : World) :=
  callFormatter pf FmtKind.relativeTime args c w

/-- The `getListFormat` member (utils.ts lines 169-172). -/
def getListFormat (pf : Platform) (args : List JsVal) (c : IntlCache)
    (w : World) := callFormatter pf FmtKind.list args c w

/-- The `getDisplayNames` member (utils.ts lines 173-176). -/
def getDisplayNames (pf : Platform) (args : List JsVal) (c : IntlCache)
    (w : World) := callFormatter pf FmtKind.displayNames args c w

/-! ## Theorems -/

theorem recGet_append {V : Type} (r s : List (String × V)) (k : String) :
    recGet (r ++ s) k = ((recGet r k).rec (recGet s k) (fun v => some v)) := by
  induction r with
  | nil => simp [recGet]
  | cons p r ih =>
    by_cases hp : p.1 = k
    · simp [recGet, hp]
    · simp [recGet, hp, ih]

theorem recGet_map_overwrite_ne {V : Type} (r : List (String × V))
    (k k2 : String) (v : V) (h : k2 ≠ k) :
    recGet (r.map (fun p => if p.1 = k then (k, v) else p)) k2 =
      recGet r k2 := by
  induction r with
  | nil => simp [recGet]
  | cons p r ih =>
    by_cases hp : p.1 = k
    · have hk2 : ¬ k = k2 := fun hh => h hh.symm
      have hp2 : ¬ p.1 = k2 := by rw [hp]; exact hk2
      simp [recGet, hp, hk2, hp2, ih]
    · by_cases hp2 : p.1 = k2
      · simp [recGet, hp, hp2, h]
      · simp [recGet, hp, hp2, ih]

theorem recGet_recSet_self {V : Type} (r : List (String × V)) (k : String)
    (v : V) : recGet (recSet r k v) k = some v := by
  unfold recSet recHas
  split
  · rename_i h
    induction r with
    | nil => simp [recGet] at h
    | cons p r ih =>
      by_cases hp : p.1 = k
      · simp [recGet, hp]
      · simp only [recGet, hp, if_false, List.map_cons] at h ⊢
        exact ih h
  · rename_i h
    rw [Option.not_isSome_iff_eq_none] at h
    rw [recGet_append, h]
    simp [recGet]

theorem recGet_recSet_ne {V : Type} (r : List (String × V)) (k k2 : String)
    (v : V) (h : k2 ≠ k) : recGet (recSet r k v) k2 = recGet r k2 := by
  unfold recSet
  split
  · exact recGet_map_overwrite_ne r k k2 v h
  · rw [recGet_append]
    have hk2 : ¬ k = k2 := fun hh => h hh.symm
    cases hv : recGet r k2 with
    | none => simp [recGet, hk2]
    | some v0 => simp

theorem recGet_eq_none_iff_not_mem_keys {V : Type} (r : List (String × V))
    (k : String) : recGet r k = none ↔ k ∉ r.map Prod.fst := by
  induction r with
  | nil => simp [recGet]
  | cons p r ih =>
    simp only [recGet, List.map_cons, List.mem_cons]
    by_cases hp : p.1 = k
    · simp [hp]
    · have : ¬ k = p.1 := fun hh => hp hh.symm
      simp [hp, this, ih]

theorem recGet_filterStep_self (props defaults acc : List (String × JsVal))
    (k : String) :
    recGet (filterStep props defaults acc k) k =
      if (propOrDefault props defaults k).isSome then
        propOrDefault props defaults k
      else recGet acc k := by
  unfold filterStep propOrDefault
  cases hp : recGet props k with
  | some v => simp [recGet_recSet_self]
  | none =>
    cases hd : recGet defaults k with
    | some v => simp [recGet_recSet_self]
    | none => simp

theorem recGet_filterStep_ne (props defaults acc : List (String × JsVal))
    (k w : String) (h : k ≠ w) :
    recGet (filterStep props defaults acc w) k = recGet acc k := by
  unfold filterStep
  cases hp : recGet props w with
  | some v => exact recGet_recSet_ne acc w k v h
  | none =>
    cases hd : recGet defaults w with
    | some v => exact recGet_recSet_ne acc w k v h
    | none => rfl

theorem filterProps_loop (props defaults : List (String × JsVal))
    (ws : List String) (acc : List (String × JsVal)) (k : String) :
    recGet (ws.foldl (filterStep props defaults) acc) k =
      if k ∈ ws ∧ (propOrDefault props defaults k).isSome then
        propOrDefault props defaults k
      else recGet acc k := by
  induction ws generalizing acc with
  | nil => simp
  | cons w ws ih =>
    rw [List.foldl_cons, ih]
    by_cases h1 : k ∈ ws ∧ (propOrDefault props defaults k).isSome
    · rw [if_pos h1, if_pos ⟨List.mem_cons_of_mem w h1.1, h1.2⟩]
    · rw [if_neg h1]
      by_cases hkw : k = w
      · subst hkw
        by_cases h2 : (propOrDefault props defaults k).isSome
        · rw [if_pos ⟨List.mem_cons_self k ws, h2⟩]
          rw [recGet_filterStep_self, if_pos h2]
        · have : ¬ (k ∈ k :: ws ∧ (propOrDefault props defaults k).isSome) :=
            fun hc => h2 hc.2
          rw [if_neg this, recGet_filterStep_self, if_neg h2]
      · rw [recGet_filterStep_ne props defaults acc k w hkw]
        have : ¬ (k ∈ w :: ws ∧ (propOrDefault props defaults k).isSome) := by
          intro hc
          rcases List.mem_cons.mp hc.1 with hh | hh
          · exact hkw hh
          · exact h1 ⟨hh, hc.2⟩
        rw [if_neg this]

/-- C4: `filterProps` keeps, for each whitelisted key, the source value when
the key is present in the source, else the default value when present there,
and otherwise leaves the key entirely absent from the result; keys outside
the whitelist never appear in the result. -/
theorem filterProps_spec (props : List (String × JsVal))
    (whitelist : List String) (defaults : List (String × JsVal))
    (k : String) :
    (recGet (filterProps props whitelist defaults) k =
      if k ∈ whitelist then propOrDefault props defaults k else none)
    ∧ (recGet (filterProps props whitelist defaults) k = none →
      k ∉ (filterProps props whitelist defaults).map Prod.fst) := by
  constructor
  · unfold filterProps
    rw [filterProps_loop]
    by_cases h1 : k ∈ whitelist
    · by_cases h2 : (propOrDefault props defaults k).isSome
      · rw [if_pos ⟨h1, h2⟩, if_pos h1]
      · rw [if_neg (fun hc => h2 hc.2), if_pos h1]
        rw [Option.not_isSome_iff_eq_none] at h2
        simp [recGet, h2]
    · rw [if_neg (fun hc => h1 hc.1), if_neg h1]
      simp [recGet]
  · intro h
    exact (recGet_eq_none_iff_not_mem_keys _ k).mp h

/-- C4 witness: evaluating `filterProps` at the spec examples
`filterProps (a:1, b:2) [a, c] (c:3)` and `filterProps (a:1) [z]`. -/
theorem filterProps_spec_witness :
    (recGet (filterProps [("a", .jnum 1), ("b", .jnum 2)] ["a", "c"]
        [("c", .jnum 3)]) "c" =
      if "c" ∈ ["a", "c"] then
        propOrDefault [("a", .jnum 1), ("b", .jnum 2)] [("c", .jnum 3)] "c"
      else none)
    ∧ recGet (filterProps [("a", .jnum 1)] ["z"] []) "z" = none
    ∧ "z" ∉ (filterProps [("a", .jnum 1)] ["z"] []).map Prod.fst := by
  refine ⟨(filterProps_spec _ _ _ "c").1, ?_, ?_⟩
  · rfl
  · exact (filterProps_spec [("a", .jnum 1)] ["z"] [] "z").2 rfl

/-- C8: `invariantIntlContext` throws the descriptive error exactly when its
argument is falsy (in particular for `undefined`, `null`, `0` and the empty
string) and returns normally for every truthy value. -/
theorem invariantIntlContext_spec (intl : Option JsVal) :
    (invariantIntlContext intl =
      if truthyOpt intl then Except.ok ()
      else Except.error intlContextErrorMessage)
    ∧ truthyOpt none = false
    ∧ truthyOpt (some .jnull) = false
    ∧ truthyOpt (some (.jnum 0)) = false
    ∧ truthyOpt (some (.jstr "")) = false := by
  refine ⟨rfl, rfl, rfl, ?_, ?_⟩ <;> rfl

/-- C2: `getNamedFormat` returns the option bag registered under the
requested name for the requested kind without reporting any error, and when
the kind is absent from the table or the name is absent under that kind it
returns `undefined` and invokes the error callback exactly once with an
unsupported-formatter error naming the kind and the name. -/
theorem getNamedFormat_contract (fm ft bag : List (String × JsVal))
    (type name : String) :
    (recGet fm type = some (.jobj ft) → recGet ft name = some (.jobj bag) →
      getNamedFormat (some (.jobj fm)) type name = (some (.jobj bag), []))
    ∧ (recGet fm type = none →
      getNamedFormat (some (.jobj fm)) type name =
        (none, [⟨"No " ++ type ++ " format named: " ++ name⟩]))
    ∧ (recGet fm type = some (.jobj ft) → recGet ft name = none →
      getNamedFormat (some (.jobj fm)) type name =
        (none, [⟨"No " ++ type ++ " format named: " ++ name⟩])) := by
  refine ⟨?_, ?_, ?_⟩
  · intro h1 h2
    simp [getNamedFormat, jsIndex, truthyOpt, truthy, h1, h2]
  · intro h1
    simp [getNamedFormat, jsIndex, truthyOpt, truthy, h1]
  · intro h1 h2
    simp [getNamedFormat, jsIndex, truthyOpt, truthy, h1, h2]

/-- C2 witness: the two examples of the spec, a present named format and a
lookup in an empty table. -/
theorem getNamedFormat_contract_witness :
    getNamedFormat
        (some (.jobj [("number",
          .jobj [("USD", .jobj [("style", .jstr "currency")])])]))
        "number" "USD" =
      (some (.jobj [("style", .jstr "currency")]), [])
    ∧ getNamedFormat (some (.jobj [])) "number" "USD" =
      (none, [⟨"No " ++ "number" ++ " format named: " ++ "USD"⟩]) :=
  ⟨(getNamedFormat_contract
      [("number", .jobj [("USD", .jobj [("style", .jstr "currency")])])]
      [("USD", .jobj [("style", .jstr "currency")])]
      [("style", .jstr "currency")] "number" "USD").1 rfl rfl,
   (getNamedFormat_contract [] [] [] "number" "USD").2.1 rfl⟩

/-- C9: `getNamedFormat` decides presence by truthiness: a registered but
falsy value under the requested kind and name is treated as missing, so the
error callback fires once and `undefined` is returned instead of the
registered falsy value. -/
theorem getNamedFormat_truthiness (fm ft : List (String × JsVal))
    (type name : String) (v : JsVal)
    (h1 : recGet fm type = some (.jobj ft)) (h2 : recGet ft name = some v)
    (h3 : truthy v = false) :
    getNamedFormat (some (.jobj fm)) type name =
      (none, [⟨"No " ++ type ++ " format named: " ++ name⟩]) := by
  cases v with
  | jnull => simp [getNamedFormat, jsIndex, truthyOpt, truthy, h1, h2]
  | jbool b =>
    have hb : b = false := by simpa [truthy] using h3
    subst hb
    simp [getNamedFormat, jsIndex, truthyOpt, truthy, h1, h2]
  | jnum n =>
    have hn : n = 0 := by simpa [truthy] using h3
    subst hn
    simp [getNamedFormat, jsIndex, truthyOpt, truthy, h1, h2]
  | jstr s =>
    have hs : s = "" := by simpa [truthy] using h3
    subst hs
    simp [getNamedFormat, jsIndex, truthyOpt, truthy, h1, h2]
  | jarr xs => simp [truthy] at h3
  | jobj kvs => simp [truthy] at h3

/-- C9 witness: the registered value `0` under kind `number`, name `USD` is
treated as missing. -/
theorem getNamedFormat_truthiness_witness :
    getNamedFormat (some (.jobj [("number", .jobj [("USD", .jnum 0)])]))
        "number" "USD" =
      (none, [⟨"No " ++ "number" ++ " format named: " ++ "USD"⟩]) :=
  getNamedFormat_truthiness [("number", .jobj [("USD", .jnum 0)])]
    [("USD", .jnum 0)] "number" "USD" (.jnum 0) rfl rfl rfl

/-! ### Cache container lemmas -/

theorem subStore_setSubStore_self (c : IntlCache) (k : FmtKind) (s : Store) :
    subStore (setSubStore c k s) k = s := by
  cases k <;> rfl

theorem subStore_setSubStore_ne (c : IntlCache) (k k2 : FmtKind) (s : Store)
    (h : k2 ≠ k) : subStore (setSubStore c k s) k2 = subStore c k2 := by
  cases k <;> cases k2 <;> first
    | exact absurd rfl h
    | rfl

theorem setSubStore_subStore_self (c : IntlCache) (k : FmtKind) :
    setSubStore c k (subStore c k) = c := by
  cases k <;> rfl

theorem subStore_createIntlCache (k : FmtKind) :
    subStore createIntlCache k = [] := by
  cases k <;> rfl

theorem callFormatter_eq (pf : Platform) (k : FmtKind) (args : List JsVal)
    (c : IntlCache) (w : World) :
    callFormatter pf k args c w =
      ((memoizedApply pf k args (subStore c k) w).1,
       setSubStore c k (memoizedApply pf k args (subStore c k) w).2.1,
       (memoizedApply pf k args (subStore c k) w).2.2) := rfl

theorem callFormatter_hit (pf : Platform) (k : FmtKind) (args : List JsVal)
    (c : IntlCache) (w : World) (v : Instance)
    (hhit : recGet (subStore c k) (serializeArgs args) = some v) :
    callFormatter pf k args c w = (Except.ok v, c, w) := by
  rw [callFormatter_eq]
  unfold memoizedApply cacheGet
  rw [hhit]
  rw [setSubStore_subStore_self]

theorem callFormatter_miss_ok (pf : Platform) (k : FmtKind)
    (args : List JsVal) (c : IntlCache) (w : World)
    (habsent : recGet (subStore c k) (serializeArgs args) = none)
    (hok : pf.throwsOn k args = none) :
    callFormatter pf k args c w =
      (Except.ok (freshInstance k args w.nextId),
       setSubStore c k (cacheSet (subStore c k) (serializeArgs args)
         (freshInstance k args w.nextId)),
       ⟨w.nextId + 1, w.calls ++ [(k, args)]⟩) := by
  rw [callFormatter_eq]
  unfold memoizedApply cacheGet underlyingNew
  rw [habsent, hok]

theorem callFormatter_miss_throw (pf : Platform) (k : FmtKind)
    (args : List JsVal) (c : IntlCache) (w : World) (e : String)
    (habsent : recGet (subStore c k) (serializeArgs args) = none)
    (herr : pf.throwsOn k args = some e) :
    callFormatter pf k args c w =
      (Except.error e, c, ⟨w.nextId, w.calls ++ [(k, args)]⟩) := by
  rw [callFormatter_eq]
  unfold memoizedApply cacheGet underlyingNew
  rw [habsent, herr]
  rw [setSubStore_subStore_self]

/-- C1: over any cache container, calling a memoized constructor of
`createFormatters` twice with the same argument tuple — a tuple not yet
cached, whose construction succeeds — yields on the second call the
identical instance constructed and returned by the first call (not merely an
equal one: the same allocation), leaves the container untouched, and the
underlying platform constructor is invoked exactly once across both
calls. -/
theorem memoized_second_call_identical (pf : Platform) (k : FmtKind)
    (args : List JsVal) (c : IntlCache) (w : World)
    (habsent : recGet (subStore c k) (serializeArgs args) = none)
    (hok : pf.throwsOn k args = none) :
    ∃ v : Instance,
      (callFormatter pf k args c w).1 = Except.ok v ∧
      (callFormatter pf k args (callFormatter pf k args c w).2.1
          (callFormatter pf k args c w).2.2).1 = Except.ok v ∧
      (callFormatter pf k args (callFormatter pf k args c w).2.1
          (callFormatter pf k args c w).2.2).2.1 =
        (callFormatter pf k args c w).2.1 ∧
      (callFormatter pf k args (callFormatter pf k args c w).2.1
          (callFormatter pf k args c w).2.2).2.2.calls =
        w.calls ++ [(k, args)] := by
  have h1 := callFormatter_miss_ok pf k args c w habsent hok
  refine ⟨freshInstance k args w.nextId, ?_, ?_, ?_, ?_⟩ <;>
    rw [h1] <;>
    rw [callFormatter_hit pf k args _ _ (freshInstance k args w.nextId)
      (by rw [subStore_setSubStore_self]; exact recGet_recSet_self _ _ _)]

/-- C1 witness: a `getNumberFormat`-style call of kind number with locale
list `["en"]` on a fresh container constructs once and returns the identical
instance on the second call. -/
theorem memoized_second_call_identical_witness :
    recGet (subStore createIntlCache FmtKind.number)
        (serializeArgs [.jstr "en"]) = none
    ∧ Platform.throwsOn ⟨fun _ _ => none⟩ FmtKind.number [.jstr "en"] = none
    ∧ ∃ v : Instance,
      (callFormatter ⟨fun _ _ => none⟩ FmtKind.number [.jstr "en"]
        createIntlCache ⟨0, []⟩).1 = Except.ok v ∧
      (callFormatter ⟨fun _ _ => none⟩ FmtKind.number [.jstr "en"]
          (callFormatter ⟨fun _ _ => none⟩ FmtKind.number [.jstr "en"]
            createIntlCache ⟨0, []⟩).2.1
          (callFormatter ⟨fun _ _ => none⟩ FmtKind.number [.jstr "en"]
            createIntlCache ⟨0, []⟩).2.2).1 = Except.ok v ∧
      (callFormatter ⟨fun _ _ => none⟩ FmtKind.number [.jstr "en"]
          (callFormatter ⟨fun _ _ => none⟩ FmtKind.number [.jstr "en"]
            createIntlCache ⟨0, []⟩).2.1
          (callFormatter ⟨fun _ _ => none⟩ FmtKind.number [.jstr "en"]
            createIntlCache ⟨0, []⟩).2.2).2.1 =
        (callFormatter ⟨fun _ _ => none⟩ FmtKind.number [.jstr "en"]
          createIntlCache ⟨0, []⟩).2.1 ∧
      (callFormatter ⟨fun _ _ => none⟩ FmtKind.number [.jstr "en"]
          (callFormatter ⟨fun _ _ => none⟩ FmtKind.number [.jstr "en"]
            createIntlCache ⟨0, []⟩).2.1
          (callFormatter ⟨fun _ _ => none⟩ FmtKind.number [.jstr "en"]
            createIntlCache ⟨0, []⟩).2.2).2.2.calls =
        ([] : List (FmtKind × List JsVal)) ++
          [(FmtKind.number, [.jstr "en"])] :=
  ⟨rfl, rfl,
    memoized_second_call_identical ⟨fun _ _ => none⟩ FmtKind.number
      [.jstr "en"] createIntlCache ⟨0, []⟩ rfl rfl⟩

/-- C5: when the underlying platform constructor throws for a not-yet-cached
argument tuple, the memoized constructor propagates the error unmodified,
the cache container is left exactly as it was, and in particular the store
of that kind has no entry under the tuple's key afterwards. -/
theorem memoized_error_propagates (pf : Platform) (k : FmtKind)
    (args : List JsVal) (c : IntlCache) (w : World) (e : String)
    (habsent : recGet (subStore c k) (serializeArgs args) = none)
    (herr : pf.throwsOn k args = some e) :
    callFormatter pf k args c w =
      (Except.error e, c, ⟨w.nextId, w.calls ++ [(k, args)]⟩)
    ∧ recGet (subStore (callFormatter pf k args c w).2.1 k)
        (serializeArgs args) = none := by
  have h := callFormatter_miss_throw pf k args c w e habsent herr
  exact ⟨h, by rw [h]; exact habsent⟩

/-- C5 witness: a throwing constructor for kind dateTime propagates its
message and leaves the fresh container empty. -/
theorem memoized_error_propagates_witness :
    recGet (subStore createIntlCache FmtKind.dateTime)
        (serializeArgs [.jstr "xx"]) = none
    ∧ Platform.throwsOn ⟨fun _ _ => some "RangeError"⟩ FmtKind.dateTime
        [.jstr "xx"] = some "RangeError"
    ∧ callFormatter ⟨fun _ _ => some "RangeError"⟩ FmtKind.dateTime
        [.jstr "xx"] createIntlCache ⟨0, []⟩ =
      (Except.error "RangeError", createIntlCache,
        ⟨0, ([] : List (FmtKind × List JsVal)) ++
          [(FmtKind.dateTime, [.jstr "xx"])]⟩) :=
  ⟨rfl, rfl,
    (memoized_error_propagates ⟨fun _ _ => some "RangeError"⟩
      FmtKind.dateTime [.jstr "xx"] createIntlCache ⟨0, []⟩ "RangeError"
      rfl rfl).1⟩

theorem memoizedApply_preserves (pf : Platform) (k : FmtKind)
    (args : List JsVal) (store : Store) (w : World) (key : String)
    (v : Instance) (h : recGet store key = some v) :
    recGet (memoizedApply pf k args store w).2.1 key = some v := by
  unfold memoizedApply cacheGet underlyingNew
  cases hc : recGet store (serializeArgs args) with
  | some v0 => exact h
  | none =>
    cases ho : pf.throwsOn k args with
    | some e => exact h
    | none =>
      have hne : key ≠ serializeArgs args := by
        intro hh
        rw [hh, hc] at h
        exact Option.noConfusion h
      unfold cacheSet
      rw [recGet_recSet_ne store (serializeArgs args) key _ hne]
      exact h

/-- C6: a call to the memoized constructor of kind `k` confines every
mutation of the cache container to the sub-store of kind `k`: the other six
sub-stores are returned unchanged, and every entry already present in the
sub-store of kind `k` is still present, unchanged, afterwards — entries are
only inserted, never removed or evicted. -/
theorem callFormatter_frame (pf : Platform) (k : FmtKind)
    (args : List JsVal) (c : IntlCache) (w : World) :
    (∀ k2 : FmtKind, k2 ≠ k →
      subStore (callFormatter pf k args c w).2.1 k2 = subStore c k2)
    ∧ (∀ (key : String) (v : Instance),
      recGet (subStore c k) key = some v →
      recGet (subStore (callFormatter pf k args c w).2.1 k) key = some v) := by
  rw [callFormatter_eq]
  constructor
  · intro k2 h
    exact subStore_setSubStore_ne c k k2 _ h
  · intro key v h
    rw [subStore_setSubStore_self]
    exact memoizedApply_preserves pf k args (subStore c k) w key v h

/-- C6 witness: a call of kind number leaves the dateTime sub-store of the
fresh container unchanged, and a pre-existing number entry survives a call
with different arguments. -/
theorem callFormatter_frame_witness :
    subStore (callFormatter ⟨fun _ _ => none⟩ FmtKind.number [.jstr "en"]
        createIntlCache ⟨0, []⟩).2.1 FmtKind.dateTime =
      subStore createIntlCache FmtKind.dateTime
    ∧ recGet (subStore (callFormatter ⟨fun _ _ => none⟩ FmtKind.number
        [.jstr "de"]
        (setSubStore createIntlCache FmtKind.number
          [("k0", ⟨7, FmtKind.number, [], []⟩)])
        ⟨8, []⟩).2.1 FmtKind.number) "k0" =
      some ⟨7, FmtKind.number, [], []⟩ :=
  ⟨(callFormatter_frame ⟨fun _ _ => none⟩ FmtKind.number [.jstr "en"]
      createIntlCache ⟨0, []⟩).1 FmtKind.dateTime (by
        intro hh
        exact FmtKind.noConfusion hh),
   (callFormatter_frame ⟨fun _ _ => none⟩ FmtKind.number [.jstr "de"]
      (setSubStore createIntlCache FmtKind.number
        [("k0", ⟨7, FmtKind.number, [], []⟩)]) ⟨8, []⟩).2 "k0"
      ⟨7, FmtKind.number, [], []⟩ rfl⟩

/-- C7: `createIntlCache` returns a fresh container whose seven stores are
empty and independent; separate containers share no entries: constructing
through formatters backed by one fresh container and then calling the
same-kind constructor with the same arguments against another fresh
container invokes the underlying constructor again and allocates a distinct
instance. -/
theorem separate_caches_fresh_construction (pf : Platform) (k : FmtKind)
    (args : List JsVal) (w : World)
    (hok : pf.throwsOn k args = none) :
    (∀ k2 : FmtKind, subStore createIntlCache k2 = []) ∧
    ∃ v1 v2 : Instance,
      (callFormatter pf k args createIntlCache w).1 = Except.ok v1 ∧
      (callFormatter pf k args createIntlCache
        (callFormatter pf k args createIntlCache w).2.2).1 = Except.ok v2 ∧
      (callFormatter pf k args createIntlCache
        (callFormatter pf k args createIntlCache w).2.2).2.2.calls =
        w.calls ++ [(k, args), (k, args)] ∧
      v1.instId ≠ v2.instId := by
  have habs : recGet (subStore createIntlCache k) (serializeArgs args) =
      none := by
    rw [subStore_createIntlCache]
    rfl
  have h1 := callFormatter_miss_ok pf k args createIntlCache w habs hok
  refine ⟨subStore_createIntlCache, freshInstance k args w.nextId,
    freshInstance k args (w.nextId + 1), ?_, ?_, ?_, ?_⟩
  · rw [h1]
  · rw [h1]
    rw [callFormatter_miss_ok pf k args createIntlCache _ habs hok]
  · rw [h1]
    rw [callFormatter_miss_ok pf k args createIntlCache _ habs hok]
    simp [freshInstance]
  · simp [freshInstance]

/-- C7 witness: two fresh containers, same kind and arguments: two
constructions, distinct identities. -/
theorem separate_caches_fresh_construction_witness :
    Platform.throwsOn ⟨fun _ _ => none⟩ FmtKind.pluralRules [.jstr "en"] =
      none
    ∧ ((∀ k2 : FmtKind, subStore createIntlCache k2 = []) ∧
      ∃ v1 v2 : Instance,
        (callFormatter ⟨fun _ _ => none⟩ FmtKind.pluralRules [.jstr "en"]
          createIntlCache ⟨0, []⟩).1 = Except.ok v1 ∧
        (callFormatter ⟨fun _ _ => none⟩ FmtKind.pluralRules [.jstr "en"]
          createIntlCache
          (callFormatter ⟨fun _ _ => none⟩ FmtKind.pluralRules [.jstr "en"]
            createIntlCache ⟨0, []⟩).2.2).1 = Except.ok v2 ∧
        (callFormatter ⟨fun _ _ => none⟩ FmtKind.pluralRules [.jstr "en"]
          createIntlCache
          (callFormatter ⟨fun _ _ => none⟩ FmtKind.pluralRules [.jstr "en"]
            createIntlCache ⟨0, []⟩).2.2).2.2.calls =
          ([] : List (FmtKind × List JsVal)) ++
            [(FmtKind.pluralRules, [.jstr "en"]),
             (FmtKind.pluralRules, [.jstr "en"])] ∧
        v1.instId ≠ v2.instId) :=
  ⟨rfl, separate_caches_fresh_construction ⟨fun _ _ => none⟩
    FmtKind.pluralRules [.jstr "en"] ⟨0, []⟩ rfl⟩

theorem recGet_spreadInto (base entries : List (String × OptVal))
    (key : String) (hnodup : (entries.map Prod.fst).Nodup) :
    recGet (spreadInto base entries) key =
      match recGet entries key with
      | some v => some v
      | none => recGet base key := by
  induction entries generalizing base with
  | nil => simp [spreadInto, recGet]
  | cons kv rest ih =>
    simp only [List.map_cons, List.nodup_cons] at hnodup
    have hres : spreadInto base (kv :: rest) =
        spreadInto (recSet base kv.1 kv.2) rest := rfl
    rw [hres, ih _ hnodup.2]
    by_cases hk : kv.1 = key
    · subst hk
      have hnone : recGet rest kv.1 = none :=
        (recGet_eq_none_iff_not_mem_keys rest kv.1).mpr hnodup.1
      rw [hnone]
      simp [recGet, recGet_recSet_self]
    · have hcons : recGet (kv :: rest) key = recGet rest key := by
        simp [recGet, hk]
      rw [hcons]
      cases hr : recGet rest key with
      | some v => rfl
      | none =>
        simpa using recGet_recSet_ne base kv.1 key kv.2 fun hh => hk hh.symm

theorem recGet_map_data (entries : List (String × JsVal)) (key : String) :
    recGet (entries.map (fun kv => (kv.1, OptVal.data kv.2))) key =
      (recGet entries key).map OptVal.data := by
  induction entries with
  | nil => simp [recGet]
  | cons kv rest ih =>
    by_cases hk : kv.1 = key
    · simp [recGet, hk]
    · simp [recGet, hk, ih]

theorem recGet_mergedMessageOpts (entries : List (String × JsVal))
    (hnodup : (entries.map Prod.fst).Nodup) :
    recGet (mergedMessageOpts (some (.jobj entries))) "formatters" =
      match recGet entries "formatters" with
      | some v => some (OptVal.data v)
      | none => some OptVal.injectedFormatters := by
  unfold mergedMessageOpts
  simp only [truthy, jsEntries, if_true]
  rw [recGet_spreadInto _ _ _ (by
    simpa [List.map_map, Function.comp] using hnodup)]
  rw [recGet_map_data]
  cases hr : recGet entries "formatters" with
  | some v => simp
  | none => simp [recGet]

/-- C10: the injected memoized number/date/plural-rules collaborators are
only defaults for the message constructor: when the caller's fourth
(options) argument carries its own "formatters" entry, that entry — the
options bag being spread after the injected record — is what reaches the
message-format library instead of the injected memoized constructors; when
it carries none, the injected record is passed. -/
theorem messageFormat_formatters_override (pf : Platform) (m l f : JsVal)
    (entries : List (String × JsVal)) (c : IntlCache) (w : World)
    (hnodup : (entries.map Prod.fst).Nodup)
    (habsent : recGet (subStore c FmtKind.message)
      (serializeArgs [m, l, f, .jobj entries]) = none)
    (hok : pf.throwsOn FmtKind.message [m, l, f, .jobj entries] = none) :
    (callFormatter pf FmtKind.message [m, l, f, .jobj entries] c w).1 =
      Except.ok (freshInstance FmtKind.message [m, l, f, .jobj entries]
        w.nextId)
    ∧ (∀ v : JsVal, recGet entries "formatters" = some v →
      recGet (freshInstance FmtKind.message [m, l, f, .jobj entries]
        w.nextId).messageOpts "formatters" = some (OptVal.data v))
    ∧ (recGet entries "formatters" = none →
      recGet (freshInstance FmtKind.message [m, l, f, .jobj entries]
        w.nextId).messageOpts "formatters" =
        some OptVal.injectedFormatters) := by
  have hopts : (freshInstance FmtKind.message [m, l, f, .jobj entries]
      w.nextId).messageOpts = mergedMessageOpts (some (.jobj entries)) := rfl
  refine ⟨?_, ?_, ?_⟩
  · rw [callFormatter_miss_ok pf _ _ c w habsent hok]
  · intro v hv
    rw [hopts, recGet_mergedMessageOpts entries hnodup, hv]
  · intro hv
    rw [hopts, recGet_mergedMessageOpts entries hnodup, hv]

/-- C10 witness: with a caller-supplied formatters entry the caller's value
reaches the message-format options; without one the injected record
does. -/
theorem messageFormat_formatters_override_witness :
    recGet (freshInstance FmtKind.message
        [.jstr "msg", .jstr "en", .jnull,
          .jobj [("formatters", .jstr "custom")]] 0).messageOpts
      "formatters" = some (OptVal.data (.jstr "custom"))
    ∧ recGet (freshInstance FmtKind.message
        [.jstr "msg", .jstr "en", .jnull, .jobj []] 0).messageOpts
      "formatters" = some OptVal.injectedFormatters :=
  ⟨(messageFormat_formatters_override ⟨fun _ _ => none⟩ (.jstr "msg")
      (.jstr "en") .jnull [("formatters", .jstr "custom")] createIntlCache
      ⟨0, []⟩ (by simp) rfl rfl).2.1 (.jstr "custom") rfl,
   (messageFormat_formatters_override ⟨fun _ _ => none⟩ (.jstr "msg")
      (.jstr "en") .jnull [] createIntlCache ⟨0, []⟩ (by simp) rfl
      rfl).2.2 rfl⟩

/-! ### Serialization is injective: decimal digits -/

theorem digitChar_isDigit (n : Nat) (h : n < 10) :
    (digitChar n).isDigit = true := by
  interval_cases n <;> decide

theorem digitChar_toNat (n : Nat) (h : n < 10) :
    (digitChar n).toNat = 48 + n := by
  interval_cases n <;> decide

theorem natChars_ne_nil (n : Nat) : natChars n ≠ [] := by
  rw [natChars]
  split
  · simp
  · simp

theorem natChars_all_digit (n : Nat) :
    ∀ c ∈ natChars n, c.isDigit = true := by
  induction n using Nat.strong_induction_on with
  | _ n ih =>
    rw [natChars]
    split
    · rename_i h
      intro c hc
      simp only [List.mem_singleton] at hc
      subst hc
      exact digitChar_isDigit n h
    · rename_i h
      intro c hc
      rcases List.mem_append.mp hc with hc | hc
      · exact ih (n / 10) (Nat.div_lt_self (by omega) (by omega)) c hc
      · simp only [List.mem_singleton] at hc
        subst hc
        exact digitChar_isDigit (n % 10) (Nat.mod_lt n (by omega))

theorem digitsVal_append_one (l : List Char) (c : Char) :
    digitsVal (l ++ [c]) = digitsVal l * 10 + (c.toNat - 48) := by
  unfold digitsVal
  rw [List.foldl_append]
  rfl

theorem digitsVal_natChars (n : Nat) : digitsVal (natChars n) = n := by
  induction n using Nat.strong_induction_on with
  | _ n ih =>
    rw [natChars]
    split
    · rename_i h
      show digitsVal [digitChar n] = n
      unfold digitsVal
      simp [digitChar_toNat n h]
    · rename_i h
      rw [digitsVal_append_one,
        ih (n / 10) (Nat.div_lt_self (by omega) (by omega)),
        digitChar_toNat (n % 10) (Nat.mod_lt n (by omega))]
      omega

theorem parseDigits_exhaust (ds rest : List Char)
    (hds : ∀ c ∈ ds, c.isDigit = true) (hrest : noLeadDigit rest = true) :
    parseDigits (ds ++ rest) = (ds, rest) := by
  induction ds with
  | nil =>
    cases rest with
    | nil => rfl
    | cons c r =>
      simp only [noLeadDigit, Bool.not_eq_true'] at hrest
      simp [parseDigits, hrest]
  | cons c ds ih =>
    have hc : c.isDigit = true := hds c (List.mem_cons_self c ds)
    have ih2 := ih (fun d hd => hds d (List.mem_cons_of_mem c hd))
    simp only [List.cons_append, parseDigits, hc, if_true, List.append_eq,
      ih2]

theorem natChars_head (n : Nat) :
    ∃ c t, natChars n = c :: t ∧ c.isDigit = true := by
  cases hn : natChars n with
  | nil => exact absurd hn (natChars_ne_nil n)
  | cons c t =>
    refine ⟨c, t, rfl, natChars_all_digit n c ?_⟩
    rw [hn]
    exact List.mem_cons_self c t

/-! ### Serialization is injective: string bodies -/

theorem parseStrChars_escList (s rest : List Char) :
    parseStrChars (escList s ++ ('"' :: rest)) = some (s, rest) := by
  induction s with
  | nil =>
    show parseStrChars ('"' :: rest) = some ([], rest)
    unfold parseStrChars
    simp
  | cons c cs ih =>
    by_cases hc : c = '"' ∨ c = '\\'
    · have he : escChar c = ['\\', c] := by simp [escChar, hc]
      simp only [escList, he, List.cons_append, List.append_assoc]
      have hne : ('\\' : Char) ≠ '"' := by decide
      unfold parseStrChars
      simp [hne, ih]
    · have he : escChar c = [c] := by simp [escChar, hc]
      push_neg at hc
      simp only [escList, he, List.cons_append, List.singleton_append]
      unfold parseStrChars
      simp [hc.1, hc.2, ih]

/-! ### Serialization is injective: head characters and sizes -/

theorem jsize_pos (v : JsVal) : 1 ≤ jsize v := by
  cases v <;> unfold jsize <;> omega

theorem jsizeList_pos (xs : List JsVal) : 1 ≤ jsizeList xs := by
  cases xs <;> unfold jsizeList <;> omega

theorem jsizeEntries_pos (kvs : List (String × JsVal)) :
    1 ≤ jsizeEntries kvs := by
  cases kvs <;> unfold jsizeEntries <;> omega

theorem noLeadDigit_arrTail (xs : List JsVal) (rest : List Char) :
    noLeadDigit (arrTailChars xs ++ rest) = true := by
  cases xs <;> unfold arrTailChars <;> simp [noLeadDigit]

theorem noLeadDigit_objTail (kvs : List (String × JsVal))
    (rest : List Char) :
    noLeadDigit (objTailChars kvs ++ rest) = true := by
  cases kvs <;> unfold objTailChars <;> simp [noLeadDigit, rbraceChar]

theorem digit_char_ne (c : Char) (h : c.isDigit = true) :
    c ≠ 'n' ∧ c ≠ 't' ∧ c ≠ 'f' ∧ c ≠ '"' ∧ c ≠ '-' ∧ c ≠ '[' ∧
      c ≠ lbraceChar ∧ c ≠ ']' ∧ c ≠ rbraceChar := by
  refine ⟨?_, ?_, ?_, ?_, ?_, ?_, ?_, ?_, ?_⟩ <;>
    (intro hh; subst hh; exact absurd h (by decide))

theorem stringifyChars_head (x : JsVal) :
    ∃ d t, stringifyChars x = d :: t ∧ d ≠ ']' := by
  cases x with
  | jnull =>
    exact ⟨'n', ['u', 'l', 'l'], by simp [stringifyChars], by decide⟩
  | jbool b =>
    cases b with
    | true =>
      exact ⟨'t', ['r', 'u', 'e'], by simp [stringifyChars], by decide⟩
    | false =>
      exact ⟨'f', ['a', 'l', 's', 'e'], by simp [stringifyChars], by decide⟩
  | jnum n =>
    by_cases hneg : n < 0
    · exact ⟨'-', natChars n.natAbs,
        by simp [stringifyChars, intChars, hneg], by decide⟩
    · obtain ⟨c, t, hct, hcd⟩ := natChars_head n.toNat
      refine ⟨c, t, ?_, (digit_char_ne c hcd).2.2.2.2.2.2.2.1⟩
      simp only [stringifyChars, intChars, hneg, if_false]
      exact hct
  | jstr s =>
    exact ⟨'"', escList s.data ++ ['"'], by simp [stringifyChars],
      by decide⟩
  | jarr xs =>
    exact ⟨'[', arrChars xs, by simp [stringifyChars], by decide⟩
  | jobj kvs =>
    exact ⟨lbraceChar, objChars kvs, by simp [stringifyChars], by decide⟩

theorem lbrace_facts :
    lbraceChar ≠ 'n' ∧ lbraceChar ≠ 't' ∧ lbraceChar ≠ 'f' ∧
      lbraceChar ≠ '"' ∧ lbraceChar ≠ '-' ∧ lbraceChar.isDigit = false ∧
      lbraceChar ≠ '[' := by
  refine ⟨?_, ?_, ?_, ?_, ?_, ?_, ?_⟩ <;> decide

/-- Parsing a serialized value off the front of the input recovers the value
and the trailing characters, for every sufficient fuel: the four mutual
statements of the parser. -/
theorem parse_stringify (fuel : Nat) :
    (∀ v rest, jsize v ≤ fuel → noLeadDigit rest = true →
      parseVal fuel (stringifyChars v ++ rest) = some (v, rest))
    ∧ (∀ xs rest, jsizeList xs ≤ fuel → noLeadDigit rest = true →
      parseElems fuel (arrChars xs ++ rest) = some (xs, rest))
    ∧ (∀ k v rest, jsize v + 1 ≤ fuel → noLeadDigit rest = true →
      parseEntry fuel (entryChars (k, v) ++ rest) = some ((k, v), rest))
    ∧ (∀ kvs rest, jsizeEntries kvs ≤ fuel → noLeadDigit rest = true →
      parseEntries fuel (objChars kvs ++ rest) = some (kvs, rest)) := by
  induction fuel with
  | zero =>
    refine ⟨fun v rest hsz _ => absurd hsz (by have := jsize_pos v; omega),
      fun xs rest hsz _ => absurd hsz (by have := jsizeList_pos xs; omega),
      fun k v rest hsz _ => absurd hsz (by omega),
      fun kvs rest hsz _ =>
        absurd hsz (by have := jsizeEntries_pos kvs; omega)⟩
  | succ fuel ih =>
    obtain ⟨ihV, ihE, ihN, ihS⟩ := ih
    refine ⟨?_, ?_, ?_, ?_⟩
    · intro v rest hsz hrest
      cases v with
      | jnull =>
        have he : stringifyChars .jnull = ['n', 'u', 'l', 'l'] := by
          simp [stringifyChars]
        rw [he]
        simp only [List.cons_append, List.nil_append]
        unfold parseVal
        simp [expectChars]
      | jbool b =>
        cases b with
        | true =>
          have he : stringifyChars (.jbool true) = ['t', 'r', 'u', 'e'] := by
            simp [stringifyChars]
          rw [he]
          simp only [List.cons_append, List.nil_append]
          unfold parseVal
          simp [expectChars]
        | false =>
          have he : stringifyChars (.jbool false) =
              ['f', 'a', 'l', 's', 'e'] := by
            simp [stringifyChars]
          rw [he]
          simp only [List.cons_append, List.nil_append]
          unfold parseVal
          simp [expectChars]
      | jnum n =>
        by_cases hneg : n < 0
        · have he : stringifyChars (.jnum n) = '-' :: natChars n.natAbs := by
            simp [stringifyChars, intChars, hneg]
          obtain ⟨c, t, hct, hcd⟩ := natChars_head n.natAbs
          have hpd : parseDigits (c :: (t ++ rest)) = (c :: t, rest) := by
            have h2 := parseDigits_exhaust (c :: t) rest
              (by rw [← hct]; exact natChars_all_digit _) hrest
            simpa using h2
          have hdv : digitsVal (c :: t) = n.natAbs := by
            rw [← hct]
            exact digitsVal_natChars _
          rw [he, hct]
          simp only [List.cons_append]
          unfold parseVal
          simp [hpd, hdv]
          rw [abs_of_neg hneg]
          exact neg_neg n
        · have he : stringifyChars (.jnum n) = natChars n.toNat := by
            simp [stringifyChars, intChars, hneg]
          obtain ⟨c, t, hct, hcd⟩ := natChars_head n.toNat
          obtain ⟨hn1, hn2, hn3, hn4, hn5, _, _, _, _⟩ := digit_char_ne c hcd
          have hpd : parseDigits (c :: (t ++ rest)) = (c :: t, rest) := by
            have h2 := parseDigits_exhaust (c :: t) rest
              (by rw [← hct]; exact natChars_all_digit _) hrest
            simpa using h2
          have hdv : digitsVal (c :: t) = n.toNat := by
            rw [← hct]
            exact digitsVal_natChars _
          rw [he, hct]
          simp only [List.cons_append]
          unfold parseVal
          simp [hn1, hn2, hn3, hn4, hn5, hcd, hpd, hdv]
          omega
      | jstr s =>
        obtain ⟨sd⟩ := s
        have he : stringifyChars (.jstr ⟨sd⟩) =
            '"' :: (escList sd ++ ['"']) := by
          simp [stringifyChars]
        rw [he]
        simp only [List.cons_append, List.append_assoc,
          List.singleton_append]
        unfold parseVal
        simp [parseStrChars_escList]
      | jarr xs =>
        have he : stringifyChars (.jarr xs) = '[' :: arrChars xs := by
          simp [stringifyChars]
        have hsz2 : jsizeList xs ≤ fuel := by
          have h3 : jsize (JsVal.jarr xs) = jsizeList xs + 1 := by
            simp [jsize]
          omega
        have hel : parseElems fuel (arrChars xs ++ rest) =
            some (xs, rest) := ihE xs rest hsz2 hrest
        rw [he]
        simp only [List.cons_append]
        unfold parseVal
        simp [hel]
      | jobj kvs =>
        have he : stringifyChars (.jobj kvs) = lbraceChar :: objChars kvs := by
          simp [stringifyChars]
        have hsz2 : jsizeEntries kvs ≤ fuel := by
          have h3 : jsize (JsVal.jobj kvs) = jsizeEntries kvs + 1 := by
            simp [jsize]
          omega
        have hen : parseEntries fuel (objChars kvs ++ rest) =
            some (kvs, rest) := ihS kvs rest hsz2 hrest
        obtain ⟨hl1, hl2, hl3, hl4, hl5, hl6, hl7⟩ := lbrace_facts
        rw [he]
        simp only [List.cons_append]
        unfold parseVal
        simp [hl1, hl2, hl3, hl4, hl5, hl6, hl7, hen]
    · intro xs rest hsz hrest
      cases xs with
      | nil =>
        have ha : arrChars ([] : List JsVal) = [']'] := by
          simp [arrChars]
        rw [ha]
        simp only [List.cons_append, List.nil_append]
        unfold parseElems
        simp
      | cons x xs =>
        have ha : arrChars (x :: xs) =
            stringifyChars x ++ arrTailChars xs := by
          simp [arrChars]
        have hszx : jsize x ≤ fuel := by
          have h3 : jsizeList (x :: xs) = jsize x + jsizeList xs + 1 := by
            simp [jsizeList]
          have := jsizeList_pos xs
          omega
        have hv : parseVal fuel
            (stringifyChars x ++ (arrTailChars xs ++ rest)) =
            some (x, arrTailChars xs ++ rest) :=
          ihV x (arrTailChars xs ++ rest) hszx (noLeadDigit_arrTail xs rest)
        obtain ⟨d, t, hdt, hdne⟩ := stringifyChars_head x
        rw [ha]
        simp only [List.append_assoc]
        unfold parseElems
        rw [hdt] at hv ⊢
        simp only [List.cons_append] at hv ⊢
        cases xs with
        | nil =>
          have ha2 : arrTailChars ([] : List JsVal) = [']'] := by
            simp [arrTailChars]
          rw [ha2] at hv ⊢
          simp only [List.singleton_append] at hv ⊢
          simp [hdne, hv]
        | cons y ys =>
          have ha2 : arrTailChars (y :: ys) =
              ',' :: (stringifyChars y ++ arrTailChars ys) := by
            simp [arrTailChars]
          have hszy : jsizeList (y :: ys) ≤ fuel := by
            have h3 : jsizeList (x :: y :: ys) =
                jsize x + jsizeList (y :: ys) + 1 := by
              simp [jsizeList]
            have := jsize_pos x
            omega
          have hel : parseElems fuel (arrChars (y :: ys) ++ rest) =
              some (y :: ys, rest) := ihE (y :: ys) rest hszy hrest
          have ha3 : arrChars (y :: ys) =
              stringifyChars y ++ arrTailChars ys := by
            simp [arrChars]
          rw [ha3] at hel
          rw [ha2] at hv ⊢
          simp only [List.cons_append, List.append_assoc] at hv hel ⊢
          simp [hdne, hv, hel]
    · intro k v rest hsz hrest
      obtain ⟨kd⟩ := k
      have he : entryChars (String.mk kd, v) =
          '"' :: (escList kd ++ ['"', ':'] ++ stringifyChars v) := by
        simp [entryChars]
      have hv2 : parseVal fuel (stringifyChars v ++ rest) =
          some (v, rest) := ihV v rest (by omega) hrest
      have hstr : parseStrChars
          (escList kd ++ ('"' :: (':' :: (stringifyChars v ++ rest)))) =
          some (kd, ':' :: (stringifyChars v ++ rest)) :=
        parseStrChars_escList _ _
      rw [he]
      simp only [List.cons_append, List.append_assoc,
        List.singleton_append]
      unfold parseEntry
      simp [hstr, hv2]
    · intro kvs rest hsz hrest
      cases kvs with
      | nil =>
        have ho : objChars ([] : List (String × JsVal)) = [rbraceChar] := by
          simp [objChars]
        rw [ho]
        simp only [List.cons_append, List.nil_append]
        unfold parseEntries
        simp
      | cons kv kvs =>
        obtain ⟨k, v⟩ := kv
        have ho : objChars ((k, v) :: kvs) =
            entryChars (k, v) ++ objTailChars kvs := by
          simp [objChars]
        have hszv : jsize v + 1 ≤ fuel := by
          have h3 : jsizeEntries ((k, v) :: kvs) =
              jsize v + jsizeEntries kvs + 1 := by
            simp [jsizeEntries]
          have := jsizeEntries_pos kvs
          omega
        have hen : parseEntry fuel
            (entryChars (k, v) ++ (objTailChars kvs ++ rest)) =
            some ((k, v), objTailChars kvs ++ rest) :=
          ihN k v (objTailChars kvs ++ rest) hszv
            (noLeadDigit_objTail kvs rest)
        have hq : entryChars (k, v) =
            '"' :: (escList k.data ++ ['"', ':'] ++ stringifyChars v) := by
          simp [entryChars]
        have hqr : ('"' : Char) ≠ rbraceChar := by decide
        rw [ho, hq]
        rw [hq] at hen
        simp only [List.cons_append, List.append_assoc, List.nil_append,
          List.singleton_append] at hen ⊢
        unfold parseEntries
        cases kvs with
        | nil =>
          have ho2 : objTailChars ([] : List (String × JsVal)) =
              [rbraceChar] := by
            simp [objTailChars]
          have hrc : rbraceChar ≠ ',' := by decide
          rw [ho2] at hen ⊢
          simp only [List.singleton_append] at hen ⊢
          simp [hqr, hen, hrc]
        | cons kv2 kvs2 =>
          have ho2 : objTailChars (kv2 :: kvs2) =
              ',' :: (entryChars kv2 ++ objTailChars kvs2) := by
            simp [objTailChars]
          have hszk : jsizeEntries (kv2 :: kvs2) ≤ fuel := by
            have h3 : jsizeEntries ((k, v) :: kv2 :: kvs2) =
                jsize v + jsizeEntries (kv2 :: kvs2) + 1 := by
              simp [jsizeEntries]
            have := jsize_pos v
            omega
          have hen2 : parseEntries fuel (objChars (kv2 :: kvs2) ++ rest) =
              some (kv2 :: kvs2, rest) := ihS (kv2 :: kvs2) rest hszk hrest
          have ho3 : objChars (kv2 :: kvs2) =
              entryChars kv2 ++ objTailChars kvs2 := by
            simp [objChars]
          have hcm : (',' : Char) ≠ rbraceChar := by decide
          rw [ho3] at hen2
          rw [ho2] at hen ⊢
          simp only [List.cons_append, List.append_assoc, List.nil_append,
            List.singleton_append] at hen hen2 ⊢
          simp [hqr, hcm, hen, hen2]

theorem stringifyChars_injective (a b : JsVal)
    (h : stringifyChars a = stringifyChars b) : a = b := by
  have ha := (parse_stringify (max (jsize a) (jsize b))).1 a []
    (le_max_left _ _) rfl
  have hb := (parse_stringify (max (jsize a) (jsize b))).1 b []
    (le_max_right _ _) rfl
  rw [List.append_nil] at ha hb
  rw [h, hb] at ha
  simp only [Option.some.injEq, Prod.mk.injEq] at ha
  exact ha.1.symm

theorem stringify_injective (a b : JsVal) (h : stringify a = stringify b) :
    a = b := by
  apply stringifyChars_injective
  exact congrArg String.data h

/-- The serialized cache key determines the full argument tuple: the
variadic memoization strategy keys distinct tuples distinctly. -/
theorem serializeArgs_injective (A B : List JsVal)
    (h : serializeArgs A = serializeArgs B) : A = B := by
  have h2 := stringify_injective _ _ h
  injection h2

/-- C3: two distinct argument tuples receive distinct serialized cache keys
(the key being the order-sensitive serialization of the full tuple), and
calling the memoized constructor of a kind with each tuple in turn — both
uncached, both constructions succeeding — allocates two independent
instances, each cached and retrievable under its own key afterwards. -/
theorem distinct_args_independent (pf : Platform) (k : FmtKind)
    (A B : List JsVal) (c : IntlCache) (w : World) (hne : A ≠ B)
    (habsA : recGet (subStore c k) (serializeArgs A) = none)
    (habsB : recGet (subStore c k) (serializeArgs B) = none)
    (hokA : pf.throwsOn k A = none) (hokB : pf.throwsOn k B = none) :
    serializeArgs A ≠ serializeArgs B
    ∧ (callFormatter pf k A c w).1 = Except.ok (freshInstance k A w.nextId)
    ∧ (callFormatter pf k B (callFormatter pf k A c w).2.1
        (callFormatter pf k A c w).2.2).1 =
      Except.ok (freshInstance k B (w.nextId + 1))
    ∧ (freshInstance k A w.nextId).instId ≠
      (freshInstance k B (w.nextId + 1)).instId
    ∧ recGet (subStore (callFormatter pf k B (callFormatter pf k A c w).2.1
        (callFormatter pf k A c w).2.2).2.1 k) (serializeArgs A) =
      some (freshInstance k A w.nextId)
    ∧ recGet (subStore (callFormatter pf k B (callFormatter pf k A c w).2.1
        (callFormatter pf k A c w).2.2).2.1 k) (serializeArgs B) =
      some (freshInstance k B (w.nextId + 1)) := by
  have hkey : serializeArgs A ≠ serializeArgs B :=
    fun hh => hne (serializeArgs_injective A B hh)
  have h1 := callFormatter_miss_ok pf k A c w habsA hokA
  have hsub1 : subStore (callFormatter pf k A c w).2.1 k =
      cacheSet (subStore c k) (serializeArgs A)
        (freshInstance k A w.nextId) := by
    rw [h1]
    exact subStore_setSubStore_self c k _
  have habsB2 : recGet (subStore (callFormatter pf k A c w).2.1 k)
      (serializeArgs B) = none := by
    rw [hsub1]
    unfold cacheSet
    rw [recGet_recSet_ne _ _ _ _ (fun hh => hkey hh.symm)]
    exact habsB
  have hw1 : (callFormatter pf k A c w).2.2 =
      ⟨w.nextId + 1, w.calls ++ [(k, A)]⟩ := by rw [h1]
  have h2 := callFormatter_miss_ok pf k B (callFormatter pf k A c w).2.1
    (callFormatter pf k A c w).2.2 habsB2 hokB
  refine ⟨hkey, by rw [h1], ?_, ?_, ?_, ?_⟩
  · rw [h2, hw1]
  · simp [freshInstance]
  · rw [h2]
    rw [subStore_setSubStore_self]
    unfold cacheSet
    rw [recGet_recSet_ne _ _ _ _ hkey, hsub1]
    unfold cacheSet
    exact recGet_recSet_self _ _ _
  · rw [h2, hw1]
    rw [subStore_setSubStore_self]
    unfold cacheSet
    exact recGet_recSet_self _ _ _

/-- C3 witness: the tuples `["en"]` and `["de"]` of kind number on a fresh
container: distinct keys, first construction allocates identity 0. -/
theorem distinct_args_independent_witness :
    serializeArgs [JsVal.jstr "en"] ≠ serializeArgs [JsVal.jstr "de"]
    ∧ (callFormatter ⟨fun _ _ => none⟩ FmtKind.number [JsVal.jstr "en"]
        createIntlCache ⟨0, []⟩).1 =
      Except.ok (freshInstance FmtKind.number [JsVal.jstr "en"] 0) := by
  have h := distinct_args_independent ⟨fun _ _ => none⟩ FmtKind.number
    [JsVal.jstr "en"] [JsVal.jstr "de"] createIntlCache ⟨0, []⟩
    (by
      intro hh
      injection hh with h1 _
      injection h1 with h2
      exact absurd h2 (by decide))
    rfl rfl rfl rfl
  exact ⟨h.1, h.2.1⟩

end FormatjsUtils
